import Mathlib

/-!
Verification development for the Shopify product scraper
(`shopify-scraper.js`).  The scraper's operations are shallowly embedded:
pure string manipulation (description sanitisation, thumbnail-suffix
stripping, URL checks) is modelled character-for-character after the
JavaScript source; the HTTP transport, the DOM queries and the system
clock are external collaborators and enter as explicit parameters
(a fetch oracle `Nat → Option (List RawProduct)`, a `Page` of query
results, a `now` string for `new Date().toISOString()`).  JavaScript
`null`/`undefined` values are modelled with `Option`; a JavaScript number
is modelled as `Rat` (the prices handled here are exact decimals).
-/

/-! ## Generic string helpers (JS semantics) -/

/-- JS `s.startsWith(p)`. -/
def strStartsWith (s p : String) : Bool :=
  p.toList.isPrefixOf s.toList

/-- JS `s.includes(p)`. -/
def strContains (s p : String) : Bool :=
  s.toList.tails.any fun t => p.toList.isPrefixOf t

/-- JS `String.prototype.trim` on a character list. -/
def trimChars (cs : List Char) : List Char :=
  ((cs.dropWhile Char.isWhitespace).reverse.dropWhile Char.isWhitespace).reverse

/-- JS `url.split('/').pop().split('?')[0]`: the final path segment of a
URL with any query string stripped. -/
def lastSegment (url : String) : String :=
  String.mk (((url.toList.reverse.takeWhile fun c => c ≠ '/').reverse).takeWhile
    fun c => c ≠ '?')

/-- Value of a (decimal) digit string. -/
def digitsToNat (cs : List Char) : Nat :=
  cs.foldl (fun a c => 10 * a + (c.toNat - 48)) 0

/-- JS `parseFloat`: skip leading whitespace, optional sign, longest prefix
of the form `digits [. digits]`, NaN (here `none`) when no digit was read.
Exponent notation and `Infinity` are not modelled (they do not occur in
price strings). -/
def jsParseFloat (s : String) : Option Rat :=
  let cs := s.toList.dropWhile Char.isWhitespace
  let sgn : Rat × List Char :=
    match cs with
    | '-' :: r => (-1, r)
    | '+' :: r => (1, r)
    | _ => (1, cs)
  let ip := sgn.2.takeWhile Char.isDigit
  let rest := sgn.2.drop ip.length
  let fp : List Char :=
    match rest with
    | '.' :: r => r.takeWhile Char.isDigit
    | _ => []
  if ip.isEmpty && fp.isEmpty then none
  else some (sgn.1 * ((digitsToNat ip : Rat) + (digitsToNat fp : Rat) / ((10 : Rat) ^ fp.length)))

/-! ## The thumbnail-size regex

`imgSrc.replace(/(\.[^.]+)(_[0-9]+x[0-9]+)(\.[^.]+)$/, '$1$3')`.
Because group 3 is anchored at the end and `[^.]+` cannot cross a dot, a
match (when one exists) is forced: group 3 is the last dot with a
non-empty dot-free tail, group 2 the `_digits x digits` token directly
before that dot, group 1 ends at the `_` and starts at the last dot
before it (with at least one character in between).  `thumbSplit` parses
the reversed character list accordingly and returns the reversed
`A ++ "." ++ B` part and the reversed extension when the regex matches. -/

def thumbSplit (r : List Char) : Option (List Char × List Char) :=
  let extR := r.takeWhile fun c => c ≠ '.'
  if extR.isEmpty then none else
  match r.drop extR.length with
  | [] => none
  | c1 :: r2 =>
    if c1 = '.' then
      let d2 := r2.takeWhile Char.isDigit
      if d2.isEmpty then none else
      match r2.drop d2.length with
      | [] => none
      | c2 :: r3 =>
        if c2 = 'x' then
          let d1 := r3.takeWhile Char.isDigit
          if d1.isEmpty then none else
          match r3.drop d1.length with
          | [] => none
          | c3 :: r5 =>
            if c3 = '_' then
              let bR := r5.takeWhile fun c => c ≠ '.'
              if bR.isEmpty then none else
              match r5.drop bR.length with
              | [] => none
              | c4 :: _ => if c4 = '.' then some (r5, extR) else none
            else none
        else none
    else none

/-- The `replace` call itself: strip `_<w>x<h>` when the regex matches,
otherwise return the URL unchanged. -/
def stripThumb (s : String) : String :=
  match thumbSplit s.toList.reverse with
  | some (r5, extR) => String.mk (r5.reverse ++ '.' :: extR.reverse)
  | none => s

/-! ## The style/script stripping regexes

`html.replace(/<style[^>]*>[\s\S]*?<\/style>/gi, '').replace(/<script[^>]*>[\s\S]*?<\/script>/gi, '').trim()`.
A global replace with an empty replacement is: scan left to right, at each
position try to match the whole block (case-insensitive open tag, greedy
`[^>]*` up to the first `>`, lazy body up to the earliest close tag);
on a match drop it and continue after it, otherwise keep one character
and continue. -/

/-- Drop `pat` from the front of `cs`, comparing case-insensitively. -/
def ciDrop : List Char → List Char → Option (List Char)
  | [], cs => some cs
  | _ :: _, [] => none
  | p :: ps, c :: cs => if p.toLower = c.toLower then ciDrop ps cs else none

/-- Earliest case-insensitive occurrence of `close` (non-empty); returns
what follows it. -/
def ciFindClose (close : List Char) : List Char → Option (List Char)
  | [] => none
  | c :: cs =>
    match ciDrop close (c :: cs) with
    | some rest => some rest
    | none => ciFindClose close cs

/-- Match `<tag[^>]*>` at the head: the remainder after the closing `>`. -/
def openTagEnd (tag : List Char) (cs : List Char) : Option (List Char) :=
  match ciDrop ('<' :: tag) cs with
  | none => none
  | some r =>
    match r.dropWhile fun c => c ≠ '>' with
    | '>' :: rest => some rest
    | _ => none

/-- Match a whole `<tag ...> ... </tag>` block at the head: the remainder
after the close tag. -/
def tagBlockEnd (tag : List Char) (cs : List Char) : Option (List Char) :=
  match openTagEnd tag cs with
  | none => none
  | some r => ciFindClose ('<' :: '/' :: (tag ++ ['>'])) r

/-- One global replace pass, fuelled (each match consumes at least one
character, so fuel = length suffices). -/
def stripTagFuel (tag : List Char) : Nat → List Char → List Char
  | 0, cs => cs
  | _ + 1, [] => []
  | fuel + 1, c :: cs =>
    match tagBlockEnd tag (c :: cs) with
    | some rest => stripTagFuel tag fuel rest
    | none => c :: stripTagFuel tag fuel cs

/-- `replace(/<tag[^>]*>[\s\S]*?<\/tag>/gi, '')`. -/
def stripTag (tag : List Char) (cs : List Char) : List Char :=
  stripTagFuel tag cs.length cs

/-- `cleanDescription(html)`: empty string for a falsy argument, otherwise
strip style blocks, then script blocks, then trim. -/
def cleanDescription (html : Option String) : String :=
  match html with
  | none => ""
  | some h =>
    if h = "" then ""
    else String.mk (trimChars (stripTag "script".toList (stripTag "style".toList h.toList)))

/-! ## Data model -/

/-- A product id: a number from the feed, a URL segment from the HTML tiers. -/
inductive PId where
  | ofNat (n : Nat)
  | ofStr (s : String)
deriving DecidableEq

/-- A feed variant as carried through verbatim (`product.variants`); only
`price` (a string in the feed JSON) is ever inspected. -/
structure RawVariant where
  vid : Nat
  vtitle : String
  price : String
  sku : String
deriving DecidableEq

/-- A feed image object; `img.src` is what the mapping reads. -/
structure RawImage where
  src : String
deriving DecidableEq

/-- A raw `products.json` feed entry.  `variants` is `none` when the field
is absent from the JSON. -/
structure RawProduct where
  pid : Nat
  handle : String
  title : String
  body_html : Option String
  images : List RawImage
  variants : Option (List RawVariant)
deriving DecidableEq

/-- The heterogeneous `price` field: a number, a string (JSON-LD offers
carry string prices through unchanged), or a min/max range object. -/
inductive PriceVal where
  | num (r : Rat)
  | str (s : String)
  | range (min max : Rat)
deriving DecidableEq

/-- The canonical product record pushed onto `this.productsData`.  Image
entries are `Option String` because the structured-data tier can push a
JS `undefined` into the array.  `variants` is absent (`none`) for the
HTML tiers. -/
structure ProductRecord where
  rid : PId
  handle : String
  title : String
  description : String
  price : Option PriceVal
  images : List (Option String)
  url : String
  variants : Option (List RawVariant)
  timestamp : String
deriving DecidableEq

/-- An `img` element: its `src` and `data-src` attributes (`none` =
attribute absent). -/
structure ImgTag where
  src : Option String
  dataSrc : Option String
deriving DecidableEq

/-- The `image` field of a JSON-LD Product block: an array, a single
value, or absent. -/
inductive LdImage where
  | arr (l : List String)
  | str (s : String)
  | undef
deriving DecidableEq

/-- A JSON price as found in `offers`: number or string. -/
inductive JsPrice where
  | num (r : Rat)
  | str (s : String)
deriving DecidableEq

/-- The `offers` object of a JSON-LD block. -/
structure LdOffers where
  price : Option JsPrice
  lowPrice : Option JsPrice
deriving DecidableEq

/-- A parsed JSON-LD block (`JSON.parse` succeeded). -/
structure LdData where
  atType : String
  name : String
  description : Option String
  offers : Option LdOffers
  image : LdImage
deriving DecidableEq

/-- A fetched product page, modelled by the results of the DOM queries the
scraper performs: the parse outcome of each `ld+json` script tag (`none` =
`JSON.parse` threw), the text of the two title selectors, the `html()` of
the three description selectors, the first-element text of each price
selector in order, and all `img` elements. -/
structure Page where
  ldScripts : List (Option LdData)
  titleSel : String
  h1Text : String
  descSel1 : Option String
  descSel2 : Option String
  descSel3 : Option String
  priceTexts : List (Option String)
  imgTags : List ImgTag
deriving DecidableEq

/-! ## Normalizer -/

/-- `normalizeImageUrls` acting on the `images` field: falsy entries become
`null`, entries not starting with `http` get an `https:` prefix, then
falsy entries are filtered out. -/
def normalizeImageUrls (images : List (Option String)) : List (Option String) :=
  (images.map fun iu =>
    match iu with
    | none => none
    | some u =>
      if u = "" then none
      else if strStartsWith u "http" then some u
      else some ("https:" ++ u)).filter fun x =>
        match x with
        | none => false
        | some s => s ≠ ""

/-- `Math.min(...prices)` over a non-empty list. -/
def jsMinList (q : Rat) (qs : List Rat) : Rat := qs.foldl min q

/-- `Math.max(...prices)` over a non-empty list. -/
def jsMaxList (q : Rat) (qs : List Rat) : Rat := qs.foldl max q

/-- `getProductPrice(product)`: parse every variant price, drop the NaNs,
return null when none remain (or variants are absent/empty), the single
value when min = max, else a min/max range. -/
def getProductPrice (p : RawProduct) : Option PriceVal :=
  match p.variants with
  | none => none
  | some vs =>
    if vs.length > 0 then
      match (vs.map fun v => jsParseFloat v.price).filterMap id with
      | [] => none
      | q :: qs =>
        let minPrice := jsMinList q qs
        let maxPrice := jsMaxList q qs
        if minPrice = maxPrice then some (PriceVal.num minPrice)
        else some (PriceVal.range minPrice maxPrice)
    else none

/-! ## Markup fallback helpers -/

/-- A character of the price-token regex `[\d,.]`. -/
def isNumTokChar (c : Char) : Bool := c.isDigit || c = ',' || c = '.'

/-- `priceText.match(/[\d,.]+/)`: the leftmost maximal run, if any. -/
def firstNumToken : List Char → Option (List Char)
  | [] => none
  | c :: cs =>
    if isNumTokChar c then some (c :: cs.takeWhile isNumTokChar)
    else firstNumToken cs

/-- `extractPrice($)` over the ordered selector results: first selector
whose element exists and whose text contains a numeric token wins; commas
are stripped before `parseFloat`. -/
def extractPrice : List (Option String) → Option Rat
  | [] => none
  | t :: rest =>
    match t with
    | none => extractPrice rest
    | some txt =>
      match firstNumToken (trimChars txt.toList) with
      | none => extractPrice rest
      | some tok => jsParseFloat (String.mk (tok.filter fun c => c ≠ ','))

/-- The image loop of the markup fallback:
`$('img[src*="/products/"]')` selects elements whose `src` attribute
contains `/products/`; then `attr('src') || attr('data-src')`, the
thumbnail replace, and the `https:` prefix for URLs not starting with
`http`. -/
def collectImages (tags : List ImgTag) : List String :=
  tags.filterMap fun t =>
    match t.src with
    | none => none
    | some s =>
      if strContains s "/products/" then
        match (if s = "" then t.dataSrc else some s) with
        | none => none
        | some u =>
          if u = "" then none
          else
            let full := stripThumb u
            some (if strStartsWith full "http" then full else "https:" ++ full)
      else none

/-- `[...new Set(images)]`: de-duplicate keeping first occurrences. -/
def jsSetDedup (l : List String) : List String :=
  l.foldl (fun acc x => if acc.contains x then acc else acc ++ [x]) []

/-! ## Structured-data tier -/

/-- The `ld+json` loop: the last parsed block whose `@type` is `Product`
wins; parse failures are ignored. -/
def findStructured (blocks : List (Option LdData)) : Option LdData :=
  blocks.foldl
    (fun acc b =>
      match b with
      | some d => if d.atType = "Product" then some d else acc
      | none => acc)
    none

/-- JS truthiness of an optional price (`0`, `''`, `null`, `undefined` are
falsy). -/
def jsPriceTruthy : Option JsPrice → Bool
  | none => false
  | some (JsPrice.num r) => r != 0
  | some (JsPrice.str s) => s != ""

def toPriceVal : JsPrice → PriceVal
  | JsPrice.num r => PriceVal.num r
  | JsPrice.str s => PriceVal.str s

/-- `structuredData.offers?.price || structuredData.offers?.lowPrice ||
this.extractPrice($)`. -/
def ldPrice (sd : LdData) (pg : Page) : Option PriceVal :=
  let a := sd.offers.bind LdOffers.price
  if jsPriceTruthy a then a.map toPriceVal
  else
    let b := sd.offers.bind LdOffers.lowPrice
    if jsPriceTruthy b then b.map toPriceVal
    else (extractPrice pg.priceTexts).map PriceVal.num

/-- JS `a || b` on strings. -/
def jsOrS (a b : String) : String := if a = "" then b else a

/-- JS `a || b` where either side may be `null`. -/
def jsOrOpt (a b : Option String) : Option String :=
  match a with
  | some s => if s = "" then b else some s
  | none => b

/-- `Array.isArray(image) ? image : [image]`. -/
def coerceImage : LdImage → List (Option String)
  | LdImage.arr l => l.map some
  | LdImage.str s => [some s]
  | LdImage.undef => [none]

/-! ## Record construction, one per tier -/

/-- The feed-tier record (the loop body of `scrapeViaApi`), including the
`normalizeImageUrls(productData)` call. -/
def mkFeedRecord (storeUrl now : String) (p : RawProduct) : ProductRecord :=
  { rid := PId.ofNat p.pid
    handle := p.handle
    title := p.title
    description := cleanDescription p.body_html
    price := getProductPrice p
    images := normalizeImageUrls (p.images.map fun i => some i.src)
    url := storeUrl ++ "/products/" ++ p.handle
    variants := p.variants
    timestamp := now }

/-- The structured-data record of `scrapeProductPage`.  No image
normalisation happens on this path; the `downloadProductImages` call after
the push throws (the method does not exist) but is caught by the
surrounding try, leaving the pushed record in place. -/
def mkStructuredRecord (now url : String) (sd : LdData) (pg : Page) : ProductRecord :=
  { rid := PId.ofStr (lastSegment url)
    handle := lastSegment url
    title := sd.name
    description := cleanDescription sd.description
    price := ldPrice sd pg
    images := coerceImage sd.image
    url := url
    variants := none
    timestamp := now }

/-- The markup-fallback record of `scrapeProductPage`. -/
def mkMarkupRecord (now url : String) (pg : Page) : ProductRecord :=
  { rid := PId.ofStr (lastSegment url)
    handle := lastSegment url
    title := jsOrS (String.mk (trimChars pg.titleSel.toList)) (String.mk (trimChars pg.h1Text.toList))
    description := cleanDescription (jsOrOpt pg.descSel1 (jsOrOpt pg.descSel2 pg.descSel3))
    price := (extractPrice pg.priceTexts).map PriceVal.num
    images := (jsSetDedup (collectImages pg.imgTags)).map some
    url := url
    variants := none
    timestamp := now }

/-- `scrapeProductPage` on a successfully fetched page. -/
def scrapeProductPage (now url : String) (pg : Page) : ProductRecord :=
  match findStructured pg.ldScripts with
  | some sd => mkStructuredRecord now url sd pg
  | none => mkMarkupRecord now url pg

/-! ## HTML tier driver -/

/-- Product-link discovery on the catalog page: anchors whose `href`
contains `/products/`, resolved against the store URL, de-duplicated by
exact string with `includes`. -/
def discoverLinks (storeUrl : String) (anchors : List (Option String)) : List String :=
  anchors.foldl
    (fun acc href? =>
      match href? with
      | none => acc
      | some href =>
        if href = "" then acc
        else if strContains href "/products/" then
          let fullUrl :=
            if strStartsWith href "http" then href
            else storeUrl ++ (if strStartsWith href "/" then href else "/" ++ href)
          if acc.contains fullUrl then acc else acc ++ [fullUrl]
        else acc)
    []

/-- `scrapeViaHtml`: `none` catalog = the `/collections/all` fetch threw
(caught, returns false).  A product page whose fetch throws is skipped by
`scrapeProductPage`'s own catch.  Returns (success flag, records appended
to `productsData`). -/
def scrapeViaHtml (storeUrl now : String) (catalog : Option (List (Option String)))
    (fetchPage : String → Option Page) : Bool × List ProductRecord :=
  match catalog with
  | none => (false, [])
  | some anchors =>
    (true, (discoverLinks storeUrl anchors).filterMap fun u =>
      (fetchPage u).map (scrapeProductPage now u))

/-! ## Feed tier driver

The `while (hasMoreProducts)` loop of `scrapeViaApi`, fuelled (the real
loop has no bound; every theorem below supplies enough fuel for the run it
describes).  `fetch page = none` models a transport/parse error at that
page: the surrounding catch returns `false` and `this.productsData` keeps
whatever was accumulated.  A malformed body (no `products` field) behaves
exactly like an empty list, so both are modelled by `some []`.  The result
is (final `productsData` contribution, returned Bool, pages requested). -/

def apiLoop (fetch : Nat → Option (List RawProduct)) (storeUrl now : String) :
    Nat → Nat → List ProductRecord → Nat → List ProductRecord × Bool × List Nat
  | 0, _, acc, _ => (acc, false, [])
  | fuel + 1, page, acc, total =>
    match fetch page with
    | none => (acc, false, [page])
    | some products =>
      if products.length > 0 then
        let acc2 := acc ++ products.map (mkFeedRecord storeUrl now)
        let total2 := total + products.length
        if products.length < 250 then (acc2, decide (0 < total2), [page])
        else
          let r := apiLoop fetch storeUrl now fuel (page + 1) acc2 total2
          (r.1, r.2.1, page :: r.2.2)
      else
        if page = 1 then (acc, false, [page])
        else (acc, decide (0 < total), [page])

/-- `scrapeViaApi()`: run the loop from page 1 with an empty accumulator. -/
def scrapeViaApi (fetch : Nat → Option (List RawProduct)) (storeUrl now : String)
    (fuel : Nat) : List ProductRecord × Bool × List Nat :=
  apiLoop fetch storeUrl now fuel 1 [] 0

/-- `scrape()`: feed tier first; on failure append the HTML tier's records
to the already-accumulated `productsData`; `saveFails = true` models
`saveProductsData()` throwing, in which case the catch returns `[]`. -/
def scrape (storeUrl now : String) (fetch : Nat → Option (List RawProduct))
    (catalog : Option (List (Option String))) (fetchPage : String → Option Page)
    (fuel : Nat) (saveFails : Bool) : List ProductRecord :=
  let api := scrapeViaApi fetch storeUrl now fuel
  let data :=
    if api.2.1 then api.1
    else api.1 ++ (scrapeViaHtml storeUrl now catalog fetchPage).2
  if saveFails then [] else data

/-! ## Concrete inputs used by the claim theorems -/

/-- Whether an image entry is a present string starting with `http`. -/
def optHttp : Option String → Bool
  | none => false
  | some s => strStartsWith s "http"

/-- Erase the `data-src` attribute of an image element. -/
def dropDataSrc (t : ImgTag) : ImgTag :=
  { src := t.src, dataSrc := none }

/-- A page whose JSON-LD Product block carries a scheme-relative image URL. -/
def c2page : Page :=
  { ldScripts := [some { atType := "Product", name := "N", description := none, offers := none, image := LdImage.str "//cdn.x/a.jpg" }]
    titleSel := ""
    h1Text := ""
    descSel1 := none
    descSel2 := none
    descSel3 := none
    priceTexts := []
    imgTags := [] }

/-- A feed entry listing the same image URL twice. -/
def c6prod : RawProduct :=
  { pid := 1, handle := "h", title := "t", body_html := none,
    images := [{ src := "//cdn.x/a.jpg" }, { src := "//cdn.x/a.jpg" }], variants := none }

/-- A feed oracle: one short page, then empty pages. -/
def c6fetch : Nat → Option (List RawProduct) :=
  fun p => if p = 1 then some [c6prod] else some []

/-- A page whose JSON-LD Product block has no `image` field at all. -/
def w10page : Page :=
  { ldScripts := [some { atType := "Product", name := "N", description := none, offers := none, image := LdImage.undef }]
    titleSel := ""
    h1Text := ""
    descSel1 := none
    descSel2 := none
    descSel3 := none
    priceTexts := []
    imgTags := [] }

/-- A minimal feed entry (no images, no variants). -/
def c1prod : RawProduct :=
  { pid := 1, handle := "h", title := "t", body_html := none, images := [], variants := none }

/-- A feed oracle: a full page of 250 entries, then a transport error. -/
def c1fetch : Nat → Option (List RawProduct) :=
  fun p => if p = 1 then some (List.replicate 250 c1prod) else none

/-- A feed entry with two variants priced 10.00 and 20.00. -/
def w3prod : RawProduct :=
  { pid := 7, handle := "h", title := "t", body_html := none, images := [],
    variants := some
      [{ vid := 1, vtitle := "v1", price := "10.00", sku := "s1" },
       { vid := 2, vtitle := "v2", price := "20.00", sku := "s2" }] }

/-! ## Helper lemmas -/

theorem strStartsWith_https (u : String) : strStartsWith ("https:" ++ u) "http" = true := by
  have h : ("https:" ++ u).data = 'h' :: 't' :: 't' :: 'p' :: 's' :: ':' :: u.data := by
    rw [String.data_append]
    rfl
  simp [strStartsWith, String.toList, h, List.isPrefixOf]

theorem https_append_ne_empty (u : String) : ("https:" ++ u) ≠ "" := by
  intro h
  have h2 : ("https:" ++ u).data = [] := by rw [h]
  rw [String.data_append] at h2
  have e : "https:".data = ['h', 't', 't', 'p', 's', ':'] := rfl
  rw [e] at h2
  simp at h2

theorem http_branch_http (full : String) :
    strStartsWith (if strStartsWith full "http" then full else "https:" ++ full) "http" = true := by
  by_cases h : strStartsWith full "http" = true
  · simp [h]
  · simp [h, strStartsWith_https]

theorem strContains_empty_products : strContains "" "/products/" = false := by decide

/-! normalizeImageUrls lemmas -/

theorem normalizeImageUrls_all_http (l : List (Option String)) :
    (normalizeImageUrls l).all optHttp = true := by
  induction l with
  | nil => rfl
  | cons x l ih =>
    cases x with
    | none => simpa [normalizeImageUrls, List.filter_cons] using ih
    | some u =>
      by_cases h1 : u = ""
      · simpa [normalizeImageUrls, h1, List.filter_cons] using ih
      · by_cases h2 : strStartsWith u "http" = true
        · simpa [normalizeImageUrls, h1, h2, List.filter_cons, optHttp] using ih
        · simpa [normalizeImageUrls, h1, h2, List.filter_cons, optHttp,
            https_append_ne_empty, strStartsWith_https] using ih

theorem normalizeImageUrls_idem (l : List (Option String)) :
    normalizeImageUrls (normalizeImageUrls l) = normalizeImageUrls l := by
  induction l with
  | nil => rfl
  | cons x l ih =>
    cases x with
    | none => simpa [normalizeImageUrls, List.filter_cons] using ih
    | some u =>
      by_cases h1 : u = ""
      · simpa [normalizeImageUrls, h1, List.filter_cons] using ih
      · by_cases h2 : strStartsWith u "http" = true
        · simp only [normalizeImageUrls, List.map_cons, List.filter_cons] at ih ⊢
          simp [h1, h2] at ih ⊢
          exact ih
        · simp only [normalizeImageUrls, List.map_cons, List.filter_cons] at ih ⊢
          simp [h1, h2, https_append_ne_empty, strStartsWith_https] at ih ⊢
          exact ih

/-! collectImages and jsSetDedup lemmas -/

theorem collectImages_mem_http (tags : List ImgTag) :
    ∀ x ∈ collectImages tags, strStartsWith x "http" = true := by
  intro x hx
  unfold collectImages at hx
  rw [List.mem_filterMap] at hx
  obtain ⟨t, _, ht⟩ := hx
  revert ht
  cases t.src with
  | none => intro ht; cases ht
  | some s =>
    by_cases hc : strContains s "/products/" = true
    · cases hd : (if s = "" then t.dataSrc else some s) with
      | none => intro ht; simp [hc, hd] at ht
      | some u =>
        by_cases hu : u = ""
        · intro ht; simp [hc, hd, hu] at ht
        · intro ht
          simp only [hc, if_true, hd, hu, if_false, if_neg hu, Option.some.injEq] at ht
          rw [← ht]
          exact http_branch_http _
    · intro ht; simp [hc] at ht

theorem collectImages_all_http (tags : List ImgTag) :
    (collectImages tags).all (fun s => strStartsWith s "http") = true := by
  rw [List.all_eq_true]
  intro x hx
  exact collectImages_mem_http tags x hx

theorem jsSetDedup_loop_nodup (l : List String) :
    ∀ acc : List String, acc.Nodup →
      (l.foldl (fun acc x => if acc.contains x then acc else acc ++ [x]) acc).Nodup := by
  induction l with
  | nil => intro acc h; exact h
  | cons x xs ih =>
    intro acc h
    simp only [List.foldl_cons]
    by_cases hc : acc.contains x = true
    · rw [if_pos hc]
      exact ih acc h
    · rw [if_neg hc]
      have hx : x ∉ acc := by
        intro hm
        exact hc (by simpa [List.contains, List.elem_iff] using hm)
      have h2 : (acc ++ [x]).Nodup := by
        rw [List.nodup_append]
        refine ⟨h, List.nodup_singleton x, ?_⟩
        intro a ha hb
        simp at hb
        subst hb
        exact hx ha
      exact ih (acc ++ [x]) h2

theorem jsSetDedup_nodup (l : List String) : (jsSetDedup l).Nodup :=
  jsSetDedup_loop_nodup l [] List.nodup_nil

theorem jsSetDedup_loop_subset (l : List String) :
    ∀ acc : List String, ∀ x ∈ l.foldl (fun acc x => if acc.contains x then acc else acc ++ [x]) acc,
      x ∈ acc ∨ x ∈ l := by
  induction l with
  | nil => intro acc x hx; exact Or.inl hx
  | cons y ys ih =>
    intro acc x hx
    simp only [List.foldl_cons] at hx
    rcases ih _ x hx with h | h
    · by_cases hc : acc.contains y = true
      · rw [if_pos hc] at h; exact Or.inl h
      · rw [if_neg hc] at h
        rcases List.mem_append.1 h with h2 | h2
        · exact Or.inl h2
        · simp at h2; subst h2; exact Or.inr (List.mem_cons_self _ _)
    · exact Or.inr (List.mem_cons_of_mem _ h)

theorem jsSetDedup_subset (l : List String) : ∀ x ∈ jsSetDedup l, x ∈ l := by
  intro x hx
  rcases jsSetDedup_loop_subset l [] x hx with h | h
  · cases h
  · exact h

theorem jsSetDedup_all (l : List String) (p : String → Bool) (h : l.all p = true) :
    (jsSetDedup l).all p = true := by
  rw [List.all_eq_true] at h ⊢
  intro x hx
  exact h x (jsSetDedup_subset l x hx)

/-! Fold min/max lemmas for the price range -/

theorem jsMinList_le_init (qs : List Rat) : ∀ q : Rat, jsMinList q qs ≤ q := by
  induction qs with
  | nil => intro q; exact le_refl q
  | cons y ys ih =>
    intro q
    have h : jsMinList q (y :: ys) = jsMinList (min q y) ys := rfl
    rw [h]
    exact le_trans (ih (min q y)) (min_le_left q y)

theorem jsMinList_mem (q : Rat) (qs : List Rat) : jsMinList q qs ∈ q :: qs := by
  induction qs generalizing q with
  | nil => simp [jsMinList]
  | cons y ys ih =>
    have h : jsMinList q (y :: ys) = jsMinList (min q y) ys := rfl
    rw [h]
    rcases List.mem_cons.1 (ih (min q y)) with hm | hm
    · rcases min_choice q y with hq | hq
      · rw [hm, hq]; exact List.mem_cons_self _ _
      · rw [hm, hq]; exact List.mem_cons_of_mem _ (List.mem_cons_self _ _)
    · exact List.mem_cons_of_mem _ (List.mem_cons_of_mem _ hm)

theorem jsMinList_le (q : Rat) (qs : List Rat) : ∀ x ∈ q :: qs, jsMinList q qs ≤ x := by
  induction qs generalizing q with
  | nil =>
    intro x hx
    rcases List.mem_cons.1 hx with h | h
    · subst h; exact le_refl _
    · cases h
  | cons y ys ih =>
    intro x hx
    have h : jsMinList q (y :: ys) = jsMinList (min q y) ys := rfl
    rw [h]
    rcases List.mem_cons.1 hx with h1 | h1
    · rw [h1]
      exact le_trans (jsMinList_le_init ys (min q y)) (min_le_left q y)
    · rcases List.mem_cons.1 h1 with h2 | h2
      · rw [h2]
        exact le_trans (jsMinList_le_init ys (min q y)) (min_le_right q y)
      · exact ih (min q y) x (List.mem_cons_of_mem _ h2)

theorem jsMaxList_ge_init (qs : List Rat) : ∀ q : Rat, q ≤ jsMaxList q qs := by
  induction qs with
  | nil => intro q; exact le_refl q
  | cons y ys ih =>
    intro q
    have h : jsMaxList q (y :: ys) = jsMaxList (max q y) ys := rfl
    rw [h]
    exact le_trans (le_max_left q y) (ih (max q y))

theorem jsMaxList_mem (q : Rat) (qs : List Rat) : jsMaxList q qs ∈ q :: qs := by
  induction qs generalizing q with
  | nil => simp [jsMaxList]
  | cons y ys ih =>
    have h : jsMaxList q (y :: ys) = jsMaxList (max q y) ys := rfl
    rw [h]
    rcases List.mem_cons.1 (ih (max q y)) with hm | hm
    · rcases max_choice q y with hq | hq
      · rw [hm, hq]; exact List.mem_cons_self _ _
      · rw [hm, hq]; exact List.mem_cons_of_mem _ (List.mem_cons_self _ _)
    · exact List.mem_cons_of_mem _ (List.mem_cons_of_mem _ hm)

theorem jsMaxList_ge (q : Rat) (qs : List Rat) : ∀ x ∈ q :: qs, x ≤ jsMaxList q qs := by
  induction qs generalizing q with
  | nil =>
    intro x hx
    rcases List.mem_cons.1 hx with h | h
    · subst h; exact le_refl _
    · cases h
  | cons y ys ih =>
    intro x hx
    have h : jsMaxList q (y :: ys) = jsMaxList (max q y) ys := rfl
    rw [h]
    rcases List.mem_cons.1 hx with h1 | h1
    · rw [h1]
      exact le_trans (le_max_left q y) (jsMaxList_ge_init ys (max q y))
    · rcases List.mem_cons.1 h1 with h2 | h2
      · rw [h2]
        exact le_trans (le_max_right q y) (jsMaxList_ge_init ys (max q y))
      · exact ih (max q y) x (List.mem_cons_of_mem _ h2)

/-! ## Claim theorems -/

/-- C9: whenever the top-level `scrape` catches an error (the only throw
site inside its try block is `saveProductsData`), it returns the empty
list, never the partial accumulation — regardless of how many records the
feed and HTML tiers had accumulated. -/
theorem scrape_error_returns_empty :
    ∀ (storeUrl now : String) (fetch : Nat → Option (List RawProduct))
      (catalog : Option (List (Option String))) (fetchPage : String → Option Page)
      (fuel : Nat), scrape storeUrl now fetch catalog fetchPage fuel true = [] := by
  intro u now f c fp fuel
  rfl

/-- C10: when a structured Product block is used and its `image` field is
not an array, the record's `images` is the one-element list holding that
field's value; in particular an absent `image` yields `[none]` (a
one-element list holding the absent value), not `[]`. -/
theorem structured_image_not_array_coercion :
    ∀ (now url : String) (pg : Page) (sd : LdData),
      findStructured pg.ldScripts = some sd →
      ((∀ s, sd.image = LdImage.str s → (scrapeProductPage now url pg).images = [some s]) ∧
       (sd.image = LdImage.undef → (scrapeProductPage now url pg).images = [none])) := by
  intro now url pg sd h
  constructor
  · intro s hs
    simp [scrapeProductPage, h, mkStructuredRecord, hs, coerceImage]
  · intro hs
    simp [scrapeProductPage, h, mkStructuredRecord, hs, coerceImage]

/-- Witness for C10: a concrete page whose Product block has no image
field produces `images = [none]`. -/
theorem structured_image_not_array_coercion_witness :
    (scrapeProductPage "T" "https://s.x/products/p1" w10page).images = [none] :=
  (structured_image_not_array_coercion "T" "https://s.x/products/p1" w10page
    { atType := "Product", name := "N", description := none, offers := none, image := LdImage.undef }
    rfl).2 rfl

/-- C2 counterexample: the structured-data tier performs no image-URL
normalisation, so the scheme-relative `//cdn.x/a.jpg` of Scenario C
survives verbatim instead of becoming `https://cdn.x/a.jpg`. -/
theorem structured_scheme_relative_survives :
    (scrapeProductPage "T" "https://s.x/products/a" c2page).images = [some "//cdn.x/a.jpg"] ∧
    (some "//cdn.x/a.jpg" : Option String) ≠ some "https://cdn.x/a.jpg" := by
  constructor
  · rfl
  · decide

/-- C2 (amended): the feed tier (via `normalizeImageUrls`) and the markup
fallback tier (via the inline `https:` prefix) only append image entries
that start with `http`; the structured-data tier is exempt and copies the
JSON-LD image field verbatim. -/
theorem feed_markup_images_http :
    ∀ (storeUrl now url : String) (rp : RawProduct) (pg : Page),
      ((mkFeedRecord storeUrl now rp).images.all optHttp = true) ∧
      ((mkMarkupRecord now url pg).images.all optHttp = true) := by
  intro su now url rp pg
  constructor
  · exact normalizeImageUrls_all_http _
  · show ((jsSetDedup (collectImages pg.imgTags)).map some).all optHttp = true
    rw [List.all_eq_true]
    intro x hx
    rw [List.mem_map] at hx
    obtain ⟨s, hs, rfl⟩ := hx
    show strStartsWith s "http" = true
    exact collectImages_mem_http _ s (jsSetDedup_subset _ s hs)

/-- C4 counterexample: `attr('src') || attr('data-src')` consults `src`
first, so an element with both attributes uses the `src` value, not the
`data-src` value the spec claims is preferred. -/
theorem src_preferred_over_data_src :
    collectImages [{ src := some "/products/a.jpg", dataSrc := some "/products/b.jpg" }]
      = ["https:/products/a.jpg"] ∧
    collectImages [{ src := some "/products/a.jpg", dataSrc := some "/products/b.jpg" }]
      ≠ ["https:/products/b.jpg"] := by
  constructor
  · decide
  · decide

/-- C4 (amended): `data-src` is never consulted at all — the selector
`img[src*="/products/"]` guarantees a non-empty `src`, which short-circuits
`src || data-src` — so erasing every `data-src` attribute never changes
the collected images. -/
theorem data_src_never_consulted :
    ∀ tags : List ImgTag, collectImages tags = collectImages (tags.map dropDataSrc) := by
  intro tags
  induction tags with
  | nil => rfl
  | cons t ts ih =>
    simp only [collectImages, List.map_cons, List.filterMap_cons, List.filterMap_map] at ih ⊢
    cases ht : t.src with
    | none => simpa [dropDataSrc, ht] using ih
    | some s =>
      by_cases hc : strContains s "/products/" = true
      · have hs : ¬ s = "" := by
          intro h
          rw [h] at hc
          rw [strContains_empty_products] at hc
          cases hc
        simpa [dropDataSrc, ht, hc, hs] using ih
      · simpa [dropDataSrc, ht, hc] using ih

/-- C5 counterexample: in a URL with no dot before the size token —
such as the root-relative `/products/product_300x300.jpg`, whose filename
carries the `_300x300` token right before the extension — the replace's
first group `(\.[^.]+)` cannot match, so the token is not stripped. -/
theorem thumb_token_survives :
    collectImages [{ src := some "/products/product_300x300.jpg", dataSrc := none }]
      = ["https:/products/product_300x300.jpg"] ∧
    collectImages [{ src := some "/products/product_300x300.jpg", dataSrc := none }]
      ≠ ["https:/products/product.jpg"] := by
  constructor
  · decide
  · decide

/-- C6 counterexample: the feed tier never de-duplicates — a feed entry
listing the same image URL twice produces a finalized record whose
`images` holds the (normalised) URL twice. -/
theorem feed_images_duplicated :
    (scrapeViaApi c6fetch "https://s.x" "T" 2).1 = [mkFeedRecord "https://s.x" "T" c6prod] ∧
    (mkFeedRecord "https://s.x" "T" c6prod).images
      = [some "https://cdn.x/a.jpg", some "https://cdn.x/a.jpg"] ∧
    ¬ (mkFeedRecord "https://s.x" "T" c6prod).images.Nodup := by
  refine ⟨by decide, by decide, by decide⟩

/-- C6 (amended): only the markup fallback tier de-duplicates its image
list (`[...new Set(images)]`); its records' `images` are pairwise
distinct.  The feed tier and the structured-data tier keep the image
sequence exactly as provided, duplicates included. -/
theorem markup_images_nodup :
    ∀ (now url : String) (pg : Page), ((mkMarkupRecord now url pg).images).Nodup := by
  intro now url pg
  show ((jsSetDedup (collectImages pg.imgTags)).map some).Nodup
  exact (jsSetDedup_nodup _).map (Option.some_injective _)

/-- C8 counterexample: `cleanDescription` is not idempotent.  Removing the
script block of `<sty<script></script>le>X</style>` splices the remaining
text into a style block, which a second application removes. -/
theorem clean_description_not_idempotent :
    cleanDescription (some (cleanDescription (some "<sty<script></script>le>X</style>")))
      ≠ cleanDescription (some "<sty<script></script>le>X</style>") := by
  decide

/-- C8 (amended): the image-URL half of normalisation is idempotent —
`normalizeImageUrls` fixes its own output — but description sanitisation
via `cleanDescription` is not (see the counterexample). -/
theorem normalization_idempotent_on_images :
    ∀ l : List (Option String), normalizeImageUrls (normalizeImageUrls l) = normalizeImageUrls l :=
  fun l => normalizeImageUrls_idem l

/-- C3: the derived feed price collects the variant prices, drops the
non-numeric ones, and is: null when variants are absent; null when no
numeric price remains; the scalar minimum when minimum = maximum; and the
min/max range otherwise. -/
theorem feed_price_min_max (p : RawProduct) :
    (p.variants = none → getProductPrice p = none) ∧
    (∀ vs, p.variants = some vs →
      (((vs.map fun v => jsParseFloat v.price).filterMap id) = [] → getProductPrice p = none) ∧
      (∀ m M, m ∈ (vs.map fun v => jsParseFloat v.price).filterMap id →
        M ∈ (vs.map fun v => jsParseFloat v.price).filterMap id →
        (∀ x ∈ (vs.map fun v => jsParseFloat v.price).filterMap id, m ≤ x ∧ x ≤ M) →
        getProductPrice p =
          if m = M then some (PriceVal.num m) else some (PriceVal.range m M))) := by
  constructor
  · intro h
    simp [getProductPrice, h]
  · intro vs hvs
    constructor
    · intro hnil
      cases vs with
      | nil => simp [getProductPrice, hvs]
      | cons v vs' =>
        simp only [getProductPrice, hvs, List.length_cons, gt_iff_lt, Nat.succ_pos, if_true]
        rw [hnil]
    · intro m M hm hM hb
      obtain ⟨q, qs, hq⟩ :
          ∃ q qs, (vs.map fun v => jsParseFloat v.price).filterMap id = q :: qs := by
        cases h : (vs.map fun v => jsParseFloat v.price).filterMap id with
        | nil => rw [h] at hm; cases hm
        | cons q qs => exact ⟨q, qs, rfl⟩
      have hlen : vs.length > 0 := by
        cases vs with
        | nil => simp at hq
        | cons _ _ => simp
      have h1 : jsMinList q qs = m := by
        refine le_antisymm (jsMinList_le q qs m (hq ▸ hm)) ?_
        exact (hb _ (hq ▸ jsMinList_mem q qs)).1
      have h2 : jsMaxList q qs = M := by
        refine le_antisymm ((hb _ (hq ▸ jsMaxList_mem q qs)).2) ?_
        exact jsMaxList_ge q qs M (hq ▸ hM)
      simp [getProductPrice, hvs, hlen, hq, h1, h2]

/-! apiLoop lemmas: one unfolding step per shape of the fetched page -/

theorem apiLoop_step250 (fetch : Nat → Option (List RawProduct)) (u now : String)
    (fuel page : Nat) (acc : List ProductRecord) (total : Nat) (l : List RawProduct)
    (hl : fetch page = some l) (h250 : l.length = 250) :
    apiLoop fetch u now (fuel + 1) page acc total =
      ((apiLoop fetch u now fuel (page + 1) (acc ++ l.map (mkFeedRecord u now)) (total + l.length)).1,
       (apiLoop fetch u now fuel (page + 1) (acc ++ l.map (mkFeedRecord u now)) (total + l.length)).2.1,
       page :: (apiLoop fetch u now fuel (page + 1) (acc ++ l.map (mkFeedRecord u now)) (total + l.length)).2.2) := by
  simp only [apiLoop, hl]
  rw [if_pos (by omega : l.length > 0), if_neg (by omega : ¬ l.length < 250)]

theorem apiLoop_page_mem (fetch : Nat → Option (List RawProduct)) (u now : String) :
    ∀ (fuel page : Nat) (acc : List ProductRecord) (total : Nat), 1 ≤ fuel →
      page ∈ (apiLoop fetch u now fuel page acc total).2.2 := by
  intro fuel page acc total h
  cases fuel with
  | zero => exact absurd h (by omega)
  | succ f =>
    cases hf : fetch page with
    | none => simp [apiLoop, hf]
    | some products =>
      simp only [apiLoop, hf]
      by_cases hl : products.length > 0
      · rw [if_pos hl]
        by_cases hs : products.length < 250
        · rw [if_pos hs]; simp
        · rw [if_neg hs]; simp
      · rw [if_neg hl]
        by_cases hp : page = 1
        · rw [if_pos hp]; simp
        · rw [if_neg hp]; simp

theorem apiLoop_err (fetch : Nat → Option (List RawProduct)) (u now : String) :
    ∀ (k fuel page : Nat) (acc : List ProductRecord) (total : Nat),
      (∀ i, i < k → ∃ l, fetch (page + i) = some l ∧ l.length = 250) →
      fetch (page + k) = none → k + 1 ≤ fuel →
      apiLoop fetch u now fuel page acc total =
        (acc ++ ((List.range' page k).map fun q =>
            ((fetch q).getD []).map (mkFeedRecord u now)).flatten,
         false, List.range' page (k + 1)) := by
  intro k
  induction k with
  | zero =>
    intro fuel page acc total hprev herr hfuel
    obtain ⟨f, rfl⟩ : ∃ f, fuel = f + 1 := ⟨fuel - 1, by omega⟩
    rw [Nat.add_zero] at herr
    simp only [apiLoop, herr]
    simp
  | succ k ih =>
    intro fuel page acc total hprev herr hfuel
    obtain ⟨f, rfl⟩ : ∃ f, fuel = f + 1 := ⟨fuel - 1, by omega⟩
    obtain ⟨l0, hl0, h250⟩ := hprev 0 (Nat.succ_pos k)
    rw [Nat.add_zero] at hl0
    rw [apiLoop_step250 fetch u now f page acc total l0 hl0 h250]
    have ihr := ih f (page + 1) (acc ++ l0.map (mkFeedRecord u now)) (total + l0.length)
      (fun i hi => by
        have h2 := hprev (i + 1) (by omega)
        rwa [show page + (i + 1) = page + 1 + i by omega] at h2)
      (by rwa [show page + 1 + k = page + (k + 1) by omega])
      (by omega)
    rw [ihr]
    have hr1 : List.range' page (k + 1) = page :: List.range' (page + 1) k :=
      List.range'_succ page k 1
    have hr2 : List.range' page (k + 1 + 1) = page :: List.range' (page + 1) (k + 1) :=
      List.range'_succ page (k + 1) 1
    simp [hr1, hr2, hl0, List.append_assoc]

theorem apiLoop_short (fetch : Nat → Option (List RawProduct)) (u now : String) :
    ∀ (k fuel page : Nat) (acc : List ProductRecord) (total : Nat),
      (∀ i, i < k → ∃ l, fetch (page + i) = some l ∧ l.length = 250) →
      ∀ l, fetch (page + k) = some l → l.length < 250 → k + 1 ≤ fuel →
      (apiLoop fetch u now fuel page acc total).2.2 = List.range' page (k + 1) := by
  intro k
  induction k with
  | zero =>
    intro fuel page acc total hprev l hl hlen hfuel
    obtain ⟨f, rfl⟩ : ∃ f, fuel = f + 1 := ⟨fuel - 1, by omega⟩
    rw [Nat.add_zero] at hl
    simp only [apiLoop, hl]
    by_cases h0 : l.length > 0
    · rw [if_pos h0, if_pos hlen]
      simp
    · rw [if_neg h0]
      by_cases hp : page = 1
      · rw [if_pos hp]
        simp [hp]
      · rw [if_neg hp]
        simp
  | succ k ih =>
    intro fuel page acc total hprev l hl hlen hfuel
    obtain ⟨f, rfl⟩ : ∃ f, fuel = f + 1 := ⟨fuel - 1, by omega⟩
    obtain ⟨l0, hl0, h250⟩ := hprev 0 (Nat.succ_pos k)
    rw [Nat.add_zero] at hl0
    rw [apiLoop_step250 fetch u now f page acc total l0 hl0 h250]
    have ihr := ih f (page + 1) (acc ++ l0.map (mkFeedRecord u now)) (total + l0.length)
      (fun i hi => by
        have h2 := hprev (i + 1) (by omega)
        rwa [show page + (i + 1) = page + 1 + i by omega] at h2)
      l (by rwa [show page + 1 + k = page + (k + 1) by omega]) hlen (by omega)
    have hr : List.range' page (k + 1 + 1) = page :: List.range' (page + 1) (k + 1) :=
      List.range'_succ page (k + 1) 1
    simp [ihr, hr]

theorem apiLoop_mem_next (fetch : Nat → Option (List RawProduct)) (u now : String) :
    ∀ (k fuel page : Nat) (acc : List ProductRecord) (total : Nat),
      (∀ i, i ≤ k → ∃ l, fetch (page + i) = some l ∧ l.length = 250) →
      k + 2 ≤ fuel →
      (page + k + 1) ∈ (apiLoop fetch u now fuel page acc total).2.2 := by
  intro k
  induction k with
  | zero =>
    intro fuel page acc total h hfuel
    obtain ⟨f, rfl⟩ : ∃ f, fuel = f + 1 := ⟨fuel - 1, by omega⟩
    obtain ⟨l0, hl0, h250⟩ := h 0 (Nat.zero_le 0)
    rw [Nat.add_zero] at hl0
    rw [apiLoop_step250 fetch u now f page acc total l0 hl0 h250]
    rw [Nat.add_zero]
    exact List.mem_cons_of_mem _ (apiLoop_page_mem fetch u now f (page + 1) _ _ (by omega))
  | succ k ih =>
    intro fuel page acc total h hfuel
    obtain ⟨f, rfl⟩ : ∃ f, fuel = f + 1 := ⟨fuel - 1, by omega⟩
    obtain ⟨l0, hl0, h250⟩ := h 0 (Nat.zero_le _)
    rw [Nat.add_zero] at hl0
    rw [apiLoop_step250 fetch u now f page acc total l0 hl0 h250]
    have ihr := ih f (page + 1) (acc ++ l0.map (mkFeedRecord u now)) (total + l0.length)
      (fun i hi => by
        have h2 := h (i + 1) (by omega)
        rwa [show page + (i + 1) = page + 1 + i by omega] at h2)
      (by omega)
    rw [show page + (k + 1) + 1 = page + 1 + k + 1 by omega]
    exact List.mem_cons_of_mem _ ihr

/-- C7: pagination requests pages 1..N in order; when page N returns
strictly fewer than 250 entries the loop stops there (the requested pages
are exactly 1..N, so no request for page N+1 is ever issued), and when
page N returns exactly 250 entries, page N+1 is requested. -/
theorem pagination_stop_rule (fetch : Nat → Option (List RawProduct)) (u now : String)
    (N fuel : Nat) (hN : 1 ≤ N) (hfuel : N + 2 ≤ fuel)
    (hprev : ∀ p, 1 ≤ p → p < N → ∃ l, fetch p = some l ∧ l.length = 250)
    (l : List RawProduct) (hl : fetch N = some l) :
    (l.length < 250 →
      (scrapeViaApi fetch u now fuel).2.2 = List.range' 1 N ∧
      (N + 1) ∉ (scrapeViaApi fetch u now fuel).2.2) ∧
    (l.length = 250 → (N + 1) ∈ (scrapeViaApi fetch u now fuel).2.2) := by
  obtain ⟨k, rfl⟩ : ∃ k, N = k + 1 := ⟨N - 1, by omega⟩
  constructor
  · intro hlen
    have hreq : (apiLoop fetch u now fuel 1 [] 0).2.2 = List.range' 1 (k + 1) := by
      refine apiLoop_short fetch u now k fuel 1 [] 0 ?_ l ?_ hlen (by omega)
      · intro i hi
        exact hprev (1 + i) (by omega) (by omega)
      · rwa [show 1 + k = k + 1 by omega]
    refine ⟨hreq, ?_⟩
    show k + 1 + 1 ∉ (apiLoop fetch u now fuel 1 [] 0).2.2
    rw [hreq]
    intro hmem
    rw [List.mem_range'_1] at hmem
    omega
  · intro hlen
    have hmem := apiLoop_mem_next fetch u now k fuel 1 [] 0
      (fun i hi => by
        rcases Nat.lt_or_ge i k with hik | hik
        · exact hprev (1 + i) (by omega) (by omega)
        · have hik2 : i = k := by omega
          subst hik2
          exact ⟨l, by rwa [show 1 + i = i + 1 by omega], hlen⟩)
      (by omega)
    show k + 1 + 1 ∈ (apiLoop fetch u now fuel 1 [] 0).2.2
    rwa [show 1 + k + 1 = k + 1 + 1 by omega] at hmem

/-- Witness for C7: with a feed whose first page holds 0 entries
(0 < 250), exactly page 1 is requested. -/
theorem pagination_stop_rule_witness :
    (scrapeViaApi (fun _ => some ([] : List RawProduct)) "u" "T" 3).2.2 = List.range' 1 1 :=
  ((pagination_stop_rule (fun _ => some ([] : List RawProduct)) "u" "T" 1 3 (by decide)
    (by decide) (fun p h1 h2 => absurd h2 (by omega)) [] rfl).1 (by decide)).1

/-- C1 (amended): a transport/parse error at feed page N makes
`scrapeViaApi` signal total failure (it returns false, so the coordinator
falls back to HTML scraping), but the records accumulated from pages
1..N-1 are NOT discarded: they stay in `productsData` and the run's
output is exactly those records followed by the fallback tier's records. -/
theorem feed_error_keeps_partial (fetch : Nat → Option (List RawProduct)) (u now : String)
    (N fuel : Nat) (hN : 1 ≤ N) (hfuel : N + 1 ≤ fuel)
    (hprev : ∀ p, 1 ≤ p → p < N → ∃ l, fetch p = some l ∧ l.length = 250)
    (herr : fetch N = none) :
    (scrapeViaApi fetch u now fuel).2.1 = false ∧
    (scrapeViaApi fetch u now fuel).1 =
      ((List.range' 1 (N - 1)).map fun q => ((fetch q).getD []).map (mkFeedRecord u now)).flatten ∧
    (∀ (catalog : Option (List (Option String))) (fetchPage : String → Option Page),
      scrape u now fetch catalog fetchPage fuel false =
        ((List.range' 1 (N - 1)).map fun q => ((fetch q).getD []).map (mkFeedRecord u now)).flatten
          ++ (scrapeViaHtml u now catalog fetchPage).2) := by
  obtain ⟨k, rfl⟩ : ∃ k, N = k + 1 := ⟨N - 1, by omega⟩
  have herr2 : fetch (1 + k) = none := by rwa [show 1 + k = k + 1 by omega]
  have happ := apiLoop_err fetch u now k fuel 1 [] 0
    (fun i hi => hprev (1 + i) (by omega) (by omega)) herr2 (by omega)
  have hk : k + 1 - 1 = k := by omega
  rw [hk]
  refine ⟨?_, ?_, ?_⟩
  · show (apiLoop fetch u now fuel 1 [] 0).2.1 = false
    rw [happ]
  · show (apiLoop fetch u now fuel 1 [] 0).1 = _
    rw [happ]
    simp
  · intro catalog fetchPage
    show scrape u now fetch catalog fetchPage fuel false = _
    unfold scrape
    rw [show scrapeViaApi fetch u now fuel = apiLoop fetch u now fuel 1 [] 0 from rfl, happ]
    simp

/-- Witness for C1's amended theorem: an error already on page 1 gives
failure and an output that is exactly the (empty) feed contribution
followed by the fallback records. -/
theorem feed_error_keeps_partial_witness :
    (scrapeViaApi (fun _ => none) "u" "T" 2).2.1 = false ∧
    scrape "u" "T" (fun _ => none) none (fun _ => none) 2 false =
      ((List.range' 1 (1 - 1)).map fun q =>
        (((fun _ => none : Nat → Option (List RawProduct)) q).getD []).map
          (mkFeedRecord "u" "T")).flatten
        ++ (scrapeViaHtml "u" "T" none (fun _ => none)).2 := by
  have h := feed_error_keeps_partial (fun _ => none) "u" "T" 1 2 (by decide) (by decide)
    (fun p h1 h2 => absurd h2 (by omega)) rfl
  exact ⟨h.1, h.2.2 none (fun _ => none)⟩

set_option maxRecDepth 4000 in
/-- C1 counterexample: feed page 1 returns 250 records, page 2 errors.
The strategy reports failure, yet the run's output holds the 250
records of page 1 — the partial accumulation is not discarded, and the
feed tier contributed some (not all, not none) of its records. -/
theorem feed_partial_not_discarded :
    (scrapeViaApi c1fetch "https://s.x" "T" 3).2.1 = false ∧
    scrape "https://s.x" "T" c1fetch (some []) (fun _ => none) 3 false
      = List.replicate 250 (mkFeedRecord "https://s.x" "T" c1prod) ∧
    List.replicate 250 (mkFeedRecord "https://s.x" "T" c1prod) ≠ ([] : List ProductRecord) := by
  have happ := apiLoop_err c1fetch "https://s.x" "T" 1 3 1 [] 0
    (fun i hi => by
      have hi0 : i = 0 := by omega
      subst hi0
      exact ⟨List.replicate 250 c1prod, rfl, by simp⟩)
    rfl (by omega)
  refine ⟨?_, ?_, ?_⟩
  · show (apiLoop c1fetch "https://s.x" "T" 3 1 [] 0).2.1 = false
    rw [happ]
  · show scrape "https://s.x" "T" c1fetch (some []) (fun _ => none) 3 false = _
    unfold scrape
    rw [show scrapeViaApi c1fetch "https://s.x" "T" 3 = apiLoop c1fetch "https://s.x" "T" 3 1 [] 0
      from rfl, happ]
    simp [scrapeViaHtml, discoverLinks, c1fetch]
  · intro hcontr
    have hlen := congrArg List.length hcontr
    simp at hlen

/-! takeWhile/drop lemmas for the thumbnail-regex characterisation -/

theorem takeWhile_append_stop (p : Char → Bool) :
    ∀ (xs : List Char) (y : Char) (ys : List Char),
      (∀ x ∈ xs, p x = true) → p y = false →
      (xs ++ y :: ys).takeWhile p = xs ∧ (xs ++ y :: ys).drop xs.length = y :: ys := by
  intro xs
  induction xs with
  | nil =>
    intro y ys h hy
    constructor
    · simp [List.takeWhile_cons, hy]
    · simp
  | cons x xs ih =>
    intro y ys h hy
    have h1 := h x (List.mem_cons_self x xs)
    have ih2 := ih y ys (fun z hz => h z (List.mem_cons_of_mem _ hz)) hy
    constructor
    · simp [List.takeWhile_cons, h1, ih2.1]
    · simp [ih2.2]

theorem str_data_ne (s : String) (h : s ≠ "") : s.data ≠ [] := by
  intro hd
  apply h
  cases s
  rw [show "" = String.mk [] from rfl]
  exact congrArg String.mk hd

theorem string_mk_data (s : String) : String.mk s.data = s := by
  cases s
  rfl

set_option maxRecDepth 4000 in
/-- C5 (amended): the thumbnail replace strips the `_<w>x<h>` token only
when the regex's first group `(\.[^.]+)` can match, i.e. when a dot
followed by at least one non-dot character precedes the token (in
practice the last dot of an absolute URL's hostname); with such a prefix
the token is stripped, while in a URL with no dot before the token (such
as a root-relative path, see the counterexample) it survives. -/
theorem thumb_strip_needs_preceding_dot (a b d1 d2 ext : String)
    (hb : b ≠ "") (hbdot : b.toList.all (fun c => c ≠ '.') = true)
    (hd1 : d1 ≠ "") (hd1d : d1.toList.all Char.isDigit = true)
    (hd2 : d2 ≠ "") (hd2d : d2.toList.all Char.isDigit = true)
    (hext : ext ≠ "") (hextdot : ext.toList.all (fun c => c ≠ '.') = true) :
    stripThumb (a ++ "." ++ b ++ "_" ++ d1 ++ "x" ++ d2 ++ "." ++ ext)
      = a ++ "." ++ b ++ "." ++ ext := by
  have hrev : (a ++ "." ++ b ++ "_" ++ d1 ++ "x" ++ d2 ++ "." ++ ext).toList.reverse
      = ext.data.reverse ++ '.' ::
          (d2.data.reverse ++ 'x' ::
            (d1.data.reverse ++ '_' :: (b.data.reverse ++ '.' :: a.data.reverse))) := by
    show (a ++ "." ++ b ++ "_" ++ d1 ++ "x" ++ d2 ++ "." ++ ext).data.reverse = _
    simp [String.data_append, List.reverse_append,
      show ("." : String).data = ['.'] from rfl,
      show ("_" : String).data = ['_'] from rfl,
      show ("x" : String).data = ['x'] from rfl]
  have hextall : ∀ x ∈ ext.data.reverse, decide (x ≠ '.') = true := by
    intro x hx
    exact List.all_eq_true.1 hextdot x (List.mem_reverse.1 hx)
  have hd2all : ∀ x ∈ d2.data.reverse, Char.isDigit x = true := by
    intro x hx
    exact List.all_eq_true.1 hd2d x (List.mem_reverse.1 hx)
  have hd1all : ∀ x ∈ d1.data.reverse, Char.isDigit x = true := by
    intro x hx
    exact List.all_eq_true.1 hd1d x (List.mem_reverse.1 hx)
  have hball : ∀ x ∈ b.data.reverse, decide (x ≠ '.') = true := by
    intro x hx
    exact List.all_eq_true.1 hbdot x (List.mem_reverse.1 hx)
  have tw1 := takeWhile_append_stop (fun c => decide (c ≠ '.')) ext.data.reverse '.'
    (d2.data.reverse ++ 'x' :: (d1.data.reverse ++ '_' :: (b.data.reverse ++ '.' :: a.data.reverse)))
    hextall (by simp)
  have tw2 := takeWhile_append_stop Char.isDigit d2.data.reverse 'x'
    (d1.data.reverse ++ '_' :: (b.data.reverse ++ '.' :: a.data.reverse))
    hd2all (by decide)
  have tw3 := takeWhile_append_stop Char.isDigit d1.data.reverse '_'
    (b.data.reverse ++ '.' :: a.data.reverse)
    hd1all (by decide)
  have tw4 := takeWhile_append_stop (fun c => decide (c ≠ '.')) b.data.reverse '.'
    a.data.reverse hball (by simp)
  have hene : ext.data.reverse ≠ [] := by simpa using str_data_ne ext hext
  have hd2ne : d2.data.reverse ≠ [] := by simpa using str_data_ne d2 hd2
  have hd1ne : d1.data.reverse ≠ [] := by simpa using str_data_ne d1 hd1
  have hbne : b.data.reverse ≠ [] := by simpa using str_data_ne b hb
  have hsplit : thumbSplit ((a ++ "." ++ b ++ "_" ++ d1 ++ "x" ++ d2 ++ "." ++ ext).toList.reverse)
      = some (b.data.reverse ++ '.' :: a.data.reverse, ext.data.reverse) := by
    rw [hrev]
    simp only [thumbSplit, tw1.1, tw1.2, tw2.1, tw2.2, tw3.1, tw3.2, tw4.1, tw4.2,
      List.isEmpty_eq_false.2 hene, List.isEmpty_eq_false.2 hd2ne,
      List.isEmpty_eq_false.2 hd1ne, List.isEmpty_eq_false.2 hbne]
    simp
  unfold stripThumb
  rw [hsplit]
  show String.mk ((b.data.reverse ++ '.' :: a.data.reverse).reverse ++ '.' :: ext.data.reverse.reverse)
      = a ++ "." ++ b ++ "." ++ ext
  have hdata : (a ++ "." ++ b ++ "." ++ ext).data = a.data ++ '.' :: (b.data ++ '.' :: ext.data) := by
    simp [String.data_append, show ("." : String).data = ['.'] from rfl]
  have hlist : (b.data.reverse ++ '.' :: a.data.reverse).reverse ++ '.' :: ext.data.reverse.reverse
      = a.data ++ '.' :: (b.data ++ '.' :: ext.data) := by
    simp [List.reverse_append]
  rw [hlist, ← string_mk_data (a ++ "." ++ b ++ "." ++ ext), hdata]

/-- Witness for C5's amended theorem: the full-URL form of the
counterexample's thumbnail, whose hostname supplies the preceding dot,
does get its `_300x300` token stripped. -/
theorem thumb_strip_needs_preceding_dot_witness :
    stripThumb ("https://cdn.x" ++ "." ++ "com/products/image" ++ "_" ++ "300" ++ "x" ++ "300" ++ "." ++ "jpg")
      = "https://cdn.x" ++ "." ++ "com/products/image" ++ "." ++ "jpg" :=
  thumb_strip_needs_preceding_dot "https://cdn.x" "com/products/image" "300" "300" "jpg"
    (by decide) (by decide) (by decide) (by decide) (by decide) (by decide) (by decide) (by decide)
